import Mathlib

/-!
Verification of the address-book core of `address_book_bot.py`.

The Python classes are shallowly embedded as Lean structures and pure
functions.  Mutation of Python objects is modelled by explicit state
passing: a method that mutates a record returns the updated record (or an
`Except` value when the method can raise).  Python strings are modelled as
Lean `String`s over their character lists; `str.isdigit` is modelled over
the ASCII decimal digits.
-/

namespace AddressBookBot

/-- Python exception kinds that the embedded code can raise. -/
inductive PyErr where
  | valueError (msg : String)
  | attributeError
  | unpicklingError
  deriving DecidableEq, Repr

/-- A decimal digit character `'0'`-`'9'` (code points 48-57). -/
def isDecimalDigit (c : Char) : Bool :=
  48 ≤ c.toNat && c.toNat ≤ 57

/-- Model of Python `str.isdigit`: nonempty and every character a decimal
digit (ASCII model). -/
def pyIsdigit (s : String) : Bool :=
  !s.data.isEmpty && s.data.all isDecimalDigit

/-- `Phone.validate_phone_format` (src lines 40-43): raises iff
`(value and not value.isdigit()) or len(value) != 10`, mirroring Python
operator precedence and truthiness of the string. -/
def validate_phone_format (s : String) : Except PyErr Unit :=
  if (!s.data.isEmpty && !pyIsdigit s) || s.data.length ≠ 10 then
    .error (.valueError "Phone number should be a 10-digit number")
  else
    .ok ()

/-- `Phone.__init__` (src lines 36-38): validate, then store the raw value. -/
def Phone.mk' (s : String) : Except PyErr String :=
  (validate_phone_format s).map fun _ => s

/-- `Name.__init__` (src lines 25-28): empty string is rejected. -/
def Name.mk' (s : String) : Except PyErr String :=
  if s.data.isEmpty then .error (.valueError "Name cannot be empty") else .ok s

/-- The phone invariant stated by the spec: exactly 10 characters, all
decimal digits. -/
def phoneInvariant (s : String) : Prop :=
  s.data.length = 10 ∧ ∀ c ∈ s.data, isDecimalDigit c

instance (s : String) : Decidable (phoneInvariant s) := by
  unfold phoneInvariant; infer_instance

/-- A record's mutable phone list, by value (`Field._value` of each
`Phone`).  The `Field.value` setter (src lines 16-18) stores the new value
without any validation. -/
abbrev Phones := List String

/-- `Record.edit_phone` (src lines 88-95): find the first phone whose value
equals `old` and overwrite its value with `new` via the plain `Field.value`
setter (no re-validation); raise `ValueError` when no phone matches. -/
def edit_phone (old new : String) : Phones → Except PyErr Phones
  | [] => .error (.valueError "Phone number to be edited was not found")
  | p :: ps =>
      if p = old then .ok (new :: ps)
      else (edit_phone old new ps).map (p :: ·)

/-- State-passing view of `edit_phone`: the phone list after the call,
paired with the raised exception if any.  The loop writes only the matched
element and returns at once, so when it instead falls through to `raise`
the list is exactly as it was. -/
def edit_phone_run (old new : String) (l : Phones) : Phones × Option PyErr :=
  match edit_phone old new l with
  | .ok l' => (l', none)
  | .error e => (l, some e)

/-- Every phone value in the list satisfies the 10-digit invariant. -/
def phonesValid (l : Phones) : Prop :=
  ∀ p ∈ l, phoneInvariant p

instance (l : Phones) : Decidable (phonesValid l) := by
  unfold phonesValid; infer_instance

/-- `Record.find_phone` (src lines 81-86): for each stored phone, compare
with `Phone(phone_number)`; constructing that `Phone` validates the
argument, so the loop body raises on an invalid `phone_number` — but only
if the loop body runs at least once. -/
def find_phone (phones : Phones) (number : String) : Except PyErr (Option String) :=
  match phones with
  | [] => .ok none
  | p :: ps =>
      match Phone.mk' number with
      | .error e => .error e
      | .ok q => if p = q then .ok (some p) else find_phone ps number

/-- One contact (`Record`, src lines 62-67): a validated name, the phone
values in insertion order, and the optional birthday field's stored value.
`Birthday.__init__` (src lines 51-53) validates the input string but then
stores the RAW STRING (`super().__init__(value)` — the `datetime` produced
by `validate_birthday_format` is discarded). -/
structure Record' where
  name : String
  phones : Phones
  birthday : Option String
  deriving DecidableEq, Repr

/-- Python `datetime` truncated to a calendar date (the code only ever
compares and subtracts midnight-truncated datetimes). -/
structure PyDate where
  year : Nat
  month : Nat
  day : Nat
  deriving DecidableEq, Repr

/-- Result of `Record.days_to_birthday`: either an integer day count or the
`NotImplemented` singleton returned when no `Birthday` is set. -/
inductive DaysResult where
  | intDays (n : Int)
  | notImplemented
  deriving DecidableEq, Repr

/-- The attribute access `x.strftime(fmt)` where `x` is a Python `str`:
`str` has no `strftime` attribute, so the call raises `AttributeError`.
(`Birthday.value` is the raw input string, see `Record'`.) -/
def strftimeOnStr (_s _fmt : String) : Except PyErr String :=
  .error .attributeError

/-- Python `int(s)` on a decimal-digit string. -/
def pyInt (s : String) : Except PyErr Nat :=
  if pyIsdigit s then .ok (s.toNat!) else .error (.valueError "invalid literal for int")

/-- Gregorian leap-year rule used by Python `datetime`. -/
def isLeapYear (y : Nat) : Bool :=
  y % 4 == 0 && (y % 100 != 0 || y % 400 == 0)

/-- Length of a month in the (proleptic) Gregorian calendar. -/
def daysInMonth (y m : Nat) : Nat :=
  if m = 2 then (if isLeapYear y then 29 else 28)
  else if m = 4 ∨ m = 6 ∨ m = 9 ∨ m = 11 then 30
  else 31

/-- `datetime(year, month, day)`: raises `ValueError` unless the triple is a
real calendar date with `1 <= year <= 9999`. -/
def mkDatetime (y m d : Nat) : Except PyErr PyDate :=
  if 1 ≤ y ∧ y ≤ 9999 ∧ 1 ≤ m ∧ m ≤ 12 ∧ 1 ≤ d ∧ d ≤ daysInMonth y m then
    .ok ⟨y, m, d⟩
  else
    .error (.valueError "invalid date")

/-- Day number of a Gregorian date (days-from-civil algorithm), valid for
year ≥ 1; used to model `datetime` subtraction. -/
def daysFromCivil (y m d : Nat) : Nat :=
  let y' := if m ≤ 2 then y - 1 else y
  let era := y' / 400
  let yoe := y' - era * 400
  let mp := if 2 < m then m - 3 else m + 9
  let doy := (153 * mp + 2) / 5 + d - 1
  let doe := yoe * 365 + yoe / 4 - yoe / 100 + doy
  era * 146097 + doe

/-- `(a - b).days` for two midnight-truncated datetimes. -/
def dateSub (a b : PyDate) : Int :=
  (daysFromCivil a.year a.month a.day : Int) - (daysFromCivil b.year b.month b.day : Int)

/-- `datetime` comparison `a < b` (lexicographic on year, month, day). -/
def dateLt (a b : PyDate) : Bool :=
  a.year < b.year ∨ (a.year = b.year ∧ (a.month < b.month ∨ (a.month = b.month ∧ a.day < b.day)))

/-- `Record.days_to_birthday` (src lines 97-111), with `datetime.now()`
passed in as `now`.  The method reads `self.birthday.value.strftime("%d")`;
since the stored value is the raw string, that attribute access raises. -/
def days_to_birthday (r : Record') (now : PyDate) : Except PyErr DaysResult :=
  match r.birthday with
  | none => .ok .notImplemented
  | some b => do
      let todayBirthday : PyDate := ⟨now.year, now.month, now.day⟩
      let dayS ← strftimeOnStr b "%d"
      let day ← pyInt dayS
      let monthS ← strftimeOnStr b "%m"
      let month ← pyInt monthS
      let year := now.year
      let nb ← mkDatetime year month day
      let nb ←
        if dateLt nb todayBirthday then mkDatetime (now.year + 1) month day
        else pure nb
      pure (.intDays (dateSub nb todayBirthday))

/-- `AddressBook` (src line 118): a `UserDict` mapping name strings to
records; a Python dict preserves insertion order, modelled as an ordered
association list with unique keys. -/
structure AddressBook' where
  data : List (String × Record')
  deriving DecidableEq, Repr

/-- `AddressBook.add_record` (src lines 120-123): dict assignment keyed by
the record's name — replaces in place when the key exists, else appends. -/
def add_record (b : AddressBook') (r : Record') : AddressBook' :=
  if b.data.any (·.1 = r.name) then
    ⟨b.data.map fun kv => if kv.1 = r.name then (kv.1, r) else kv⟩
  else
    ⟨b.data ++ [(r.name, r)]⟩

/-- `AddressBook.find` (src lines 125-129): exact key lookup, `None` when
absent. -/
def find (b : AddressBook') (name : String) : Option Record' :=
  (b.data.find? (·.1 = name)).map (·.2)

/-- `AddressBook.iterate` (src lines 136-143): the generator yields the
records in key order in slices of `records_per_iteration`.  With a page
size of 0 and a nonempty book the Python loop never terminates; the claims
only concern positive page sizes, and the `0` branch here is a modelling
placeholder for that divergence. -/
def iterate (n : Nat) : List α → List (List α)
  | [] => []
  | p :: ps =>
      match n with
      | 0 => []
      | k + 1 => (p :: ps).take (k + 1) :: iterate (k + 1) ((p :: ps).drop (k + 1))
termination_by l => l.length
decreasing_by
  simp only [List.drop_succ_cons, List.length_drop, List.length_cons]
  omega

/-! ## Birthday validation

`Birthday.validate_birthday_format` (src lines 55-60) calls
`datetime.strptime(value, '%d.%m.%Y')` and re-raises any `ValueError` as
`ValueError("Birthday is not a date")`.  CPython's `strptime` compiles the
format to the regex `(3[01]|[12]\d|0[1-9]|[1-9])\.(1[0-2]|0[1-9]|[1-9])\.(\d\d\d\d)`,
anchored at the start, rejects unconverted trailing data, and then builds
`datetime(year, month, day)`, which validates the calendar triple.  The
regex component for `%d`/`%m` is one or two digit characters; because the
character after the component is the literal `'.'`, the backtracking match
is deterministic: two digits are consumed exactly when two consecutive
digits are present. -/

/-- Numeric value of a decimal digit character. -/
def digitVal (c : Char) : Nat := c.toNat - 48

/-- Match a 1-2 digit component (`%d` or `%m`): two digits when two
consecutive digit characters are present, else one. -/
def parse2or1 : List Char → Option (Nat × List Char)
  | [] => none
  | [c] => if isDecimalDigit c then some (digitVal c, []) else none
  | c1 :: c2 :: rest =>
      if isDecimalDigit c1 ∧ isDecimalDigit c2 then some (digitVal c1 * 10 + digitVal c2, rest)
      else if isDecimalDigit c1 then some (digitVal c1, c2 :: rest)
      else none

/-- Match exactly four digits (`%Y`). -/
def parse4 : List Char → Option (Nat × List Char)
  | a :: b :: c :: d :: rest =>
      if isDecimalDigit a ∧ isDecimalDigit b ∧ isDecimalDigit c ∧ isDecimalDigit d then
        some (((digitVal a * 10 + digitVal b) * 10 + digitVal c) * 10 + digitVal d, rest)
      else none
  | _ => none

/-- The regex phase of `datetime.strptime(s, '%d.%m.%Y')`: day, dot, month,
dot, 4-digit year, end of string, with the `%d`/`%m` value ranges enforced
by the regex alternations (day 1-31, month 1-12, no `0`/`00` forms). -/
def strptimeDMY (s : String) : Option (Nat × Nat × Nat) :=
  match parse2or1 s.data with
  | some (d, '.' :: r1) =>
      match parse2or1 r1 with
      | some (m, '.' :: r2) =>
          match parse4 r2 with
          | some (y, []) =>
              if 1 ≤ d ∧ d ≤ 31 ∧ 1 ≤ m ∧ m ≤ 12 then some (d, m, y) else none
          | _ => none
      | _ => none
  | _ => none

/-- `Birthday.validate_birthday_format` (src lines 55-60): `strptime`
followed by the `datetime` constructor's calendar check; every failure is
re-raised as `ValueError("Birthday is not a date")`. -/
def validate_birthday_format (s : String) : Except PyErr Unit :=
  match strptimeDMY s with
  | some (d, m, y) =>
      match mkDatetime y m d with
      | .ok _ => .ok ()
      | .error _ => .error (.valueError "Birthday is not a date")
  | none => .error (.valueError "Birthday is not a date")

/-- `Birthday.__init__` (src lines 51-53): validate, then store the raw
string. -/
def Birthday.mk' (s : String) : Except PyErr String :=
  (validate_birthday_format s).map fun _ => s

/-- Valid calendar date triple in the proleptic Gregorian calendar (the
calendar of Python `datetime`). -/
def validCalendarTriple (y m d : Nat) : Prop :=
  1 ≤ y ∧ 1 ≤ m ∧ m ≤ 12 ∧ 1 ≤ d ∧ d ≤ daysInMonth y m

instance (y m d : Nat) : Decidable (validCalendarTriple y m d) := by
  unfold validCalendarTriple; infer_instance

/-- Value of a digit string, most significant first. -/
def natOfDigits (cs : List Char) : Nat :=
  cs.foldl (fun n c => n * 10 + digitVal c) 0

/-- The acceptance predicate stated by the spec for `Birthday` (claim C9):
the input splits as `day.month.year` — day and month written with one or
two digits, year with exactly four — with day in `[1,31]`, month in
`[1,12]`, and the triple a valid calendar date. -/
def specBirthdayAccepts (s : String) : Prop :=
  ∃ ds ms ys : List Char,
    s.data = ds ++ '.' :: (ms ++ '.' :: ys) ∧
    (∀ c ∈ ds, isDecimalDigit c) ∧ 1 ≤ ds.length ∧ ds.length ≤ 2 ∧
    (∀ c ∈ ms, isDecimalDigit c) ∧ 1 ≤ ms.length ∧ ms.length ≤ 2 ∧
    (∀ c ∈ ys, isDecimalDigit c) ∧ ys.length = 4 ∧
    1 ≤ natOfDigits ds ∧ natOfDigits ds ≤ 31 ∧
    1 ≤ natOfDigits ms ∧ natOfDigits ms ≤ 12 ∧
    validCalendarTriple (natOfDigits ys) (natOfDigits ms) (natOfDigits ds)

/-! ## Persistence

`write_to_file` (src lines 145-148) pickles `self.data`; `read_contacts_from_file`
(src lines 151-161) unpickles it, catching `FileNotFoundError` and
`EOFError` (returning an empty book) but letting any other unpickling
failure propagate.  The pickle stream is modelled as a token list
mirroring the default-protocol (≥ 4) stream shape: a `PROTO` header,
then a `FRAME` opcode declaring the length of the framed payload, then
the payload serializing the name→record mapping.  `pickle.load` raises
`EOFError` ("Ran out of input") only when the next-opcode read outside a
frame hits end of stream — i.e. on an empty file or a file holding just
the `PROTO` header; a stream truncated inside the frame raises
`UnpicklingError` ("pickle data was truncated"), which
`read_contacts_from_file` does NOT catch. -/

/-- A token of the serialized stream. -/
inductive PickleTok where
  | proto
  | frame (n : Nat)
  | nat (n : Nat)
  | str (s : String)
  | noneTok
  deriving DecidableEq, Repr

/-- Serialization of one record: name, phone count, phones, optional
birthday. -/
def encodeRecord (r : Record') : List PickleTok :=
  .str r.name :: .nat r.phones.length ::
    (r.phones.map PickleTok.str ++
      [match r.birthday with | some b => .str b | none => .noneTok])

/-- Serialization of the ordered name→record entries. -/
def encodeEntries : List (String × Record') → List PickleTok
  | [] => []
  | (k, r) :: rest => .str k :: (encodeRecord r ++ encodeEntries rest)

/-- The framed payload: the serialized name→record mapping. -/
def picklePayload (d : List (String × Record')) : List PickleTok :=
  .nat d.length :: encodeEntries d

/-- `pickle.dump(self.data, fh)`: the stream written to the file at the
default protocol — `PROTO` header, `FRAME` opcode carrying the payload
length, then the payload. -/
def pickleDumps (d : List (String × Record')) : List PickleTok :=
  .proto :: .frame (picklePayload d).length :: picklePayload d

/-- Deserialization failure: out of input outside a frame (`EOFError`) or
a malformed / frame-truncated stream (`UnpicklingError`). -/
inductive DecErr where
  | eof
  | corrupt
  deriving DecidableEq, Repr

/-- Read one `nat` token. -/
def readNat : List PickleTok → Except DecErr (Nat × List PickleTok)
  | [] => .error .eof
  | .nat n :: ts => .ok (n, ts)
  | _ :: _ => .error .corrupt

/-- Read one `str` token. -/
def readStr : List PickleTok → Except DecErr (String × List PickleTok)
  | [] => .error .eof
  | .str s :: ts => .ok (s, ts)
  | _ :: _ => .error .corrupt

/-- Read an optional-string token. -/
def readOptStr : List PickleTok → Except DecErr (Option String × List PickleTok)
  | [] => .error .eof
  | .str s :: ts => .ok (some s, ts)
  | .noneTok :: ts => .ok (none, ts)
  | _ :: _ => .error .corrupt

/-- Read `n` string tokens. -/
def readStrs : Nat → List PickleTok → Except DecErr (List String × List PickleTok)
  | 0, ts => .ok ([], ts)
  | n + 1, ts =>
      match readStr ts with
      | .error e => .error e
      | .ok (s, ts) =>
          match readStrs n ts with
          | .error e => .error e
          | .ok (ss, ts) => .ok (s :: ss, ts)

/-- Read one serialized record. -/
def readRecord (ts : List PickleTok) : Except DecErr (Record' × List PickleTok) :=
  match readStr ts with
  | .error e => .error e
  | .ok (name, ts) =>
      match readNat ts with
      | .error e => .error e
      | .ok (np, ts) =>
          match readStrs np ts with
          | .error e => .error e
          | .ok (phones, ts) =>
              match readOptStr ts with
              | .error e => .error e
              | .ok (bday, ts) => .ok (⟨name, phones, bday⟩, ts)

/-- Read `n` serialized name→record entries. -/
def readEntries : Nat → List PickleTok → Except DecErr (List (String × Record') × List PickleTok)
  | 0, ts => .ok ([], ts)
  | n + 1, ts =>
      match readStr ts with
      | .error e => .error e
      | .ok (k, ts) =>
          match readRecord ts with
          | .error e => .error e
          | .ok (r, ts) =>
              match readEntries n ts with
              | .error e => .error e
              | .ok (rest, ts) => .ok ((k, r) :: rest, ts)

/-- Decode the framed payload (count, then the entries). -/
def decodePayload (ts : List PickleTok) : Except DecErr (List (String × Record')) :=
  match readNat ts with
  | .error e => .error e
  | .ok (n, ts) =>
      match readEntries n ts with
      | .error e => .error e
      | .ok (d, _) => .ok d

/-- `pickle.load(fh)`: reads one serialized object from the front of the
stream.  An empty stream, or one ending right after the `PROTO` header,
makes the next-opcode read hit end of input outside a frame: `EOFError`
("Ran out of input").  Once the `FRAME` opcode has declared a length,
any shortfall of the framed data raises `UnpicklingError`
("pickle data was truncated"); so does a malformed stream. -/
def pickleLoads (ts : List PickleTok) : Except DecErr (List (String × Record')) :=
  match ts with
  | [] => .error .eof
  | [PickleTok.proto] => .error .eof
  | PickleTok.proto :: PickleTok.frame n :: rest =>
      if rest.length < n then .error .corrupt else decodePayload rest
  | _ => .error .corrupt

/-- `AddressBook.write_to_file` (src lines 145-148): the file's content
after the call. -/
def write_to_file (b : AddressBook') : List PickleTok :=
  pickleDumps b.data

/-- `AddressBook.read_contacts_from_file` (src lines 151-161): `none`
models a missing file (`FileNotFoundError`, caught → empty book);
`EOFError` (empty or header-only stream) is caught → empty book; an
`UnpicklingError` — in particular a stream truncated inside the frame —
is NOT caught and propagates to the caller. -/
def read_contacts_from_file (file : Option (List PickleTok)) : Except PyErr AddressBook' :=
  match file with
  | none => .ok ⟨[]⟩
  | some ts =>
      match pickleLoads ts with
      | .ok d => .ok ⟨d⟩
      | .error .eof => .ok ⟨[]⟩
      | .error .corrupt => .error .unpicklingError

/-- `pre` is a strict prefix of `full`: the shape of a file truncated at
end-of-file. -/
def StrictPre (pre full : List α) : Prop :=
  ∃ t, t ≠ [] ∧ pre ++ t = full

/-! ## Phone validation lemmas -/

theorem phone_mk_cases (s : String) :
    Phone.mk' s = .ok s ∨
    Phone.mk' s = .error (.valueError "Phone number should be a 10-digit number") := by
  unfold Phone.mk' validate_phone_format
  split <;> simp [Except.map]

theorem phone_cond_iff (s : String) :
    ((!s.data.isEmpty && !pyIsdigit s) || decide (s.data.length ≠ 10)) = false ↔
      phoneInvariant s := by
  unfold pyIsdigit phoneInvariant
  rcases hd : s.data with _ | ⟨c, cs⟩
  · simp
  · simp only [List.isEmpty_cons, Bool.not_false, Bool.true_and, Bool.or_eq_false_iff,
      Bool.not_eq_false', decide_eq_false_iff_not, ne_eq, not_not, List.all_eq_true,
      Bool.not_eq_false]
    tauto

theorem phone_mk_ok_iff (s : String) : Phone.mk' s = .ok s ↔ phoneInvariant s := by
  rw [← phone_cond_iff s]
  unfold Phone.mk' validate_phone_format
  split
  case isTrue h =>
    exact iff_of_false (by simp [Except.map]) (fun hc => by rw [hc] at h; cases h)
  case isFalse h =>
    rw [Bool.not_eq_true] at h
    exact iff_of_true rfl h

theorem phone_mk_error (s : String) (h : ¬ phoneInvariant s) :
    Phone.mk' s = .error (.valueError "Phone number should be a 10-digit number") := by
  rcases phone_mk_cases s with hc | hc
  · exact absurd ((phone_mk_ok_iff s).mp hc) h
  · exact hc

/-- C3: `Phone` construction succeeds, storing the input exactly, iff the
input is a string of exactly 10 decimal digits; otherwise it raises
`ValueError("Phone number should be a 10-digit number")`. -/
theorem phone_construction_spec (s : String) :
    (Phone.mk' s = .ok s ↔ phoneInvariant s) ∧
    (¬ phoneInvariant s →
      Phone.mk' s = .error (.valueError "Phone number should be a 10-digit number")) :=
  ⟨phone_mk_ok_iff s, phone_mk_error s⟩

/-- Witness for C3 at concrete inputs. -/
theorem phone_construction_spec_witness :
    Phone.mk' "0123456789" = .ok "0123456789" :=
  (phone_construction_spec "0123456789").1.mpr (by decide)

/-! ## C1: mutation does not re-validate -/

/-- C1 counterexample: `edit_phone` succeeds storing the value `"abc"`,
which violates the phone invariant — the `Field.value` setter performs no
validation. -/
theorem edit_phone_breaks_invariant :
    edit_phone_run "0123456789" "abc" ["0123456789"] = (["abc"], none) ∧
    ¬ phoneInvariant "abc" := by
  exact ⟨rfl, by decide⟩

/-- C1 (amended): validation runs at construction only.  `Phone`
construction establishes the invariant, and `edit_phone` preserves
validity of the whole list provided the incoming value itself satisfies
the 10-digit predicate — not otherwise. -/
theorem phone_invariant_construction_only (old new : String) (l : Phones)
    (hl : phonesValid l) (hnew : phoneInvariant new) :
    (∀ s, Phone.mk' s = .ok s → phoneInvariant s) ∧
    phonesValid (edit_phone_run old new l).1 := by
  refine ⟨fun s hs => (phone_mk_ok_iff s).mp hs, ?_⟩
  unfold edit_phone_run
  induction l with
  | nil => simpa [edit_phone] using hl
  | cons p ps ih =>
      by_cases hp : p = old
      · simp only [edit_phone, if_pos hp]
        intro q hq
        rcases hq with _ | hq
        · exact hnew
        · exact hl _ (List.mem_cons_of_mem _ (by assumption))
      · have hps : phonesValid ps := fun q hq => hl q (List.mem_cons_of_mem _ hq)
        have := ih hps
        simp only [edit_phone, if_neg hp]
        cases he : edit_phone old new ps with
        | ok l' =>
            rw [he] at this
            simp only [Except.map]
            intro q hq
            rcases hq with _ | hq
            · exact hl p (List.mem_cons_self p ps)
            · exact this q (by assumption)
        | error e =>
            simp only [Except.map]
            exact hl

/-- Witness for the amended C1 at concrete inputs. -/
theorem phone_invariant_construction_only_witness :
    phonesValid (edit_phone_run "0123456789" "9876543210" ["0123456789"]).1 :=
  (phone_invariant_construction_only "0123456789" "9876543210" ["0123456789"]
    (by decide) (by decide)).2

/-! ## C2: days_to_birthday crashes -/

/-- C2: on any record with a birthday set, `days_to_birthday` reaches
`self.birthday.value.strftime("%d")` with a `str` value and raises
`AttributeError`, never returning a day count; evaluated here at the
claim's own example (birthday `15.01.1990`, today 2024-01-10). -/
theorem days_to_birthday_attribute_error :
    days_to_birthday ⟨"Bill", [], some "15.01.1990"⟩ ⟨2024, 1, 10⟩ =
      .error .attributeError := rfl

/-- The day counts the claim describes, computed over the model's date
arithmetic: next-birthday Jan-15-2024 is 5 days from Jan-10-2024, and
next-birthday Jan-5-2025 is 361 days (not 360: 2024 is a leap year). -/
theorem intended_day_counts :
    dateSub ⟨2024, 1, 15⟩ ⟨2024, 1, 10⟩ = 5 ∧
    dateSub ⟨2025, 1, 5⟩ ⟨2024, 1, 10⟩ = 361 := by decide

/-! ## edit_phone lemmas -/

theorem edit_phone_not_mem (old new : String) {l : Phones} (h : old ∉ l) :
    edit_phone old new l =
      .error (.valueError "Phone number to be edited was not found") := by
  induction l with
  | nil => rfl
  | cons p ps ih =>
      have hp : ¬ p = old := fun he => h (he ▸ List.mem_cons_self p ps)
      simp only [edit_phone, if_neg hp]
      rw [ih fun hm => h (List.mem_cons_of_mem _ hm)]
      rfl

theorem edit_phone_mem_eq (old new : String) {l : Phones} (h : old ∈ l) :
    edit_phone old new l = .ok (l.set (l.indexOf old) new) := by
  induction l with
  | nil => cases h
  | cons p ps ih =>
      by_cases hp : p = old
      · rw [List.indexOf_cons_eq ps hp]
        simp [edit_phone, if_pos hp]
      · have hps : old ∈ ps := by
          rcases h with _ | hm
          · exact absurd rfl hp
          · assumption
        rw [List.indexOf_cons_ne ps hp]
        simp only [edit_phone, if_neg hp, ih hps, Except.map, List.set]

theorem indexOf_first_match (old : String) :
    ∀ (l : Phones) (j : Nat), j < l.indexOf old → l.get? j ≠ some old := by
  intro l
  induction l with
  | nil => intro j hj; simp [List.indexOf] at hj
  | cons p ps ih =>
      intro j hj
      by_cases hp : p = old
      · rw [List.indexOf_cons_eq ps hp] at hj; omega
      · rw [List.indexOf_cons_ne ps hp] at hj
        cases j with
        | zero => simpa using hp
        | succ j => simpa using ih j (by omega)

/-- C6: `edit_phone` with an absent `old` raises
`ValueError("Phone number to be edited was not found")` and leaves the
phone list unchanged; with `old` present it rewrites exactly the first
matching position and nothing else. -/
theorem edit_phone_absent_error (old new : String) (l : Phones) :
    (old ∉ l →
      edit_phone_run old new l =
        (l, some (.valueError "Phone number to be edited was not found"))) ∧
    (old ∈ l →
      edit_phone_run old new l = (l.set (l.indexOf old) new, none) ∧
      l.get? (l.indexOf old) = some old ∧
      ∀ j < l.indexOf old, l.get? j ≠ some old) := by
  constructor
  · intro h
    unfold edit_phone_run
    rw [edit_phone_not_mem old new h]
  · intro h
    refine ⟨?_, List.indexOf_get? h, indexOf_first_match old l⟩
    unfold edit_phone_run
    rw [edit_phone_mem_eq old new h]

/-- Witness for C6 at concrete inputs. -/
theorem edit_phone_absent_error_witness :
    edit_phone_run "1111111111" "2222222222" ["0123456789"] =
      (["0123456789"], some (.valueError "Phone number to be edited was not found")) :=
  (edit_phone_absent_error "1111111111" "2222222222" ["0123456789"]).1 (by decide)

/-- C10: a successful `edit_phone` mutates the first matched phone in
place: same length, same position, every other position untouched. -/
theorem edit_phone_frame (old new : String) (l : Phones) (h : old ∈ l) :
    edit_phone old new l = .ok (l.set (l.indexOf old) new) ∧
    (l.set (l.indexOf old) new).length = l.length ∧
    (l.set (l.indexOf old) new).get? (l.indexOf old) = some new ∧
    ∀ j, j ≠ l.indexOf old → (l.set (l.indexOf old) new).get? j = l.get? j := by
  refine ⟨edit_phone_mem_eq old new h, l.length_set _ _, ?_, ?_⟩
  · exact List.get?_set_eq_of_lt _ (List.indexOf_lt_length.mpr h)
  · intro j hj
    exact List.get?_set_ne _ l fun he => hj he.symm

/-- Witness for C10 at concrete inputs. -/
theorem edit_phone_frame_witness :
    edit_phone "0123456789" "9876543210" ["5555555555", "0123456789"] =
      .ok (["5555555555", "0123456789"].set
            (["5555555555", "0123456789"].indexOf "0123456789") "9876543210") :=
  (edit_phone_frame "0123456789" "9876543210" ["5555555555", "0123456789"]
    (by decide)).1

/-! ## C7: lookups -/

/-- C7 counterexample: `find_phone` on a record with at least one phone
throws `ValueError` when the searched number fails the 10-digit format,
because the loop body constructs `Phone(phone_number)`. -/
theorem find_phone_raises_on_invalid :
    find_phone ["0123456789"] "abc" =
      .error (.valueError "Phone number should be a 10-digit number") := rfl

/-- C7 (amended): `find` never throws and returns the exact-key record or
`None`; `find_phone` returns the first matching phone or `None` when the
record has no phones or the searched number passes the 10-digit
validation, but raises `ValueError` when the record has a phone and the
number fails validation. -/
theorem find_lookup_spec (b : AddressBook') (name : String) (phones : Phones)
    (number : String) :
    (find b name = none ↔ ∀ kv ∈ b.data, kv.1 ≠ name) ∧
    (∀ r, find b name = some r → (name, r) ∈ b.data) ∧
    (phones = [] → find_phone phones number = .ok none) ∧
    (phoneInvariant number →
      find_phone phones number = .ok (phones.find? (· = number))) ∧
    (phones ≠ [] → ¬ phoneInvariant number →
      find_phone phones number =
        .error (.valueError "Phone number should be a 10-digit number")) := by
  refine ⟨?_, ?_, ?_, ?_, ?_⟩
  · unfold find
    rw [Option.map_eq_none', List.find?_eq_none]
    simp
  · intro r hr
    unfold find at hr
    rcases Option.map_eq_some'.mp hr with ⟨kv, hkv, hr2⟩
    have h1 : kv.1 = name := by simpa using List.find?_some hkv
    have h2 : kv ∈ b.data := List.mem_of_find?_eq_some hkv
    have : kv = (name, r) := by
      cases kv; cases h1; cases hr2; rfl
    exact this ▸ h2
  · rintro rfl; rfl
  · intro hinv
    have hmk : Phone.mk' number = .ok number := (phone_mk_ok_iff _).mpr hinv
    induction phones with
    | nil => rfl
    | cons p ps ih =>
        simp only [find_phone, hmk, List.find?_cons]
        by_cases hp : p = number
        · simp [hp]
        · simp only [if_neg hp, ih]
          have : (decide (p = number)) = false := by simp [hp]
          rw [this]
  · intro hne hninv
    rcases phones with _ | ⟨p, ps⟩
    · exact absurd rfl hne
    · simp only [find_phone, phone_mk_error number hninv]

/-- Witness for the amended C7 at concrete inputs. -/
theorem find_lookup_spec_witness :
    find_phone ["0123456789"] "0123456789" = .ok (some "0123456789") := by
  have h := (find_lookup_spec ⟨[]⟩ "" ["0123456789"] "0123456789").2.2.2.1 (by decide)
  exact h.trans rfl

/-! ## C5: pagination -/

theorem iterate_nil (n : Nat) : iterate n ([] : List α) = [] := by
  simp [iterate]

theorem iterate_cons_succ (k : Nat) (p : α) (ps : List α) :
    iterate (k + 1) (p :: ps) =
      (p :: ps).take (k + 1) :: iterate (k + 1) ((p :: ps).drop (k + 1)) := by
  rw [iterate]

theorem iterate_eq_nil_iff (k : Nat) (l : List α) :
    iterate (k + 1) l = [] ↔ l = [] := by
  rcases l with _ | ⟨p, ps⟩
  · simp [iterate_nil]
  · rw [iterate_cons_succ]; simp

theorem iterate_join_fuel (k : Nat) :
    ∀ (n : Nat) (l : List α), l.length ≤ n → (iterate (k + 1) l).flatten = l := by
  intro n
  induction n with
  | zero =>
      intro l hl
      have : l = [] := List.length_eq_zero.mp (Nat.le_zero.mp hl)
      subst this
      rw [iterate_nil]; rfl
  | succ n ih =>
      intro l hl
      rcases l with _ | ⟨p, ps⟩
      · rw [iterate_nil]; rfl
      · rw [iterate_cons_succ]
        simp only [List.flatten_cons]
        rw [ih ((p :: ps).drop (k + 1))
          (by simp only [List.length_drop, List.length_cons] at hl ⊢; omega)]
        exact List.take_append_drop _ _

theorem iterate_pages_fuel (k : Nat) :
    ∀ (n : Nat) (l : List α), l.length ≤ n →
      ∀ pg ∈ iterate (k + 1) l, pg ≠ [] ∧ pg.length ≤ k + 1 := by
  intro n
  induction n with
  | zero =>
      intro l hl
      have : l = [] := List.length_eq_zero.mp (Nat.le_zero.mp hl)
      subst this
      rw [iterate_nil]
      intro pg hpg
      cases hpg
  | succ n ih =>
      intro l hl
      rcases l with _ | ⟨p, ps⟩
      · rw [iterate_nil]; intro pg hpg; cases hpg
      · rw [iterate_cons_succ]
        intro pg hpg
        rcases hpg with _ | hpg
        · refine ⟨by simp, ?_⟩
          simp [List.length_take]
        · exact ih ((p :: ps).drop (k + 1))
            (by simp only [List.length_drop, List.length_cons] at hl ⊢; omega)
            pg (by assumption)

theorem iterate_full_fuel (k : Nat) :
    ∀ (n : Nat) (l : List α), l.length ≤ n →
      ∀ i, i + 1 < (iterate (k + 1) l).length →
        ((iterate (k + 1) l).getD i []).length = k + 1 := by
  intro n
  induction n with
  | zero =>
      intro l hl
      have : l = [] := List.length_eq_zero.mp (Nat.le_zero.mp hl)
      subst this
      rw [iterate_nil]
      intro i hi
      simp at hi
  | succ n ih =>
      intro l hl
      rcases l with _ | ⟨p, ps⟩
      · rw [iterate_nil]; intro i hi; simp at hi
      · rw [iterate_cons_succ]
        intro i hi
        cases i with
        | zero =>
            simp only [List.getD_cons_zero]
            simp only [List.length_cons] at hi
            have hrest : iterate (k + 1) ((p :: ps).drop (k + 1)) ≠ [] := by
              intro hnil
              rw [hnil] at hi
              simp at hi
            have hdrop : (p :: ps).drop (k + 1) ≠ [] :=
              fun hd => hrest (by rw [hd, iterate_nil])
            have hlen : k + 1 < (p :: ps).length := by
              by_contra hle
              exact hdrop (List.drop_eq_nil_of_le (by omega))
            simp only [List.length_cons] at hlen
            rw [List.length_take]
            simp only [List.length_cons]
            omega
        | succ i =>
            simp only [List.getD_cons_succ]
            simp only [List.length_cons] at hi
            exact ih ((p :: ps).drop (k + 1))
              (by simp only [List.length_drop, List.length_cons] at hl ⊢; omega)
              i (by omega)

/-- C5: for a positive page size, `iterate` yields the records partitioned
in order (concatenating the pages restores the list exactly), every page
nonempty and at most `page_size` long, every non-final page exactly
`page_size` long, the empty book giving zero pages; and `iterate 2` over 5
records gives pages of sizes 2, 2, 1. -/
theorem iterate_pagination (n : Nat) (hn : 0 < n) (l : List α) :
    (iterate n l).flatten = l ∧
    (∀ pg ∈ iterate n l, pg ≠ [] ∧ pg.length ≤ n) ∧
    (∀ i, i + 1 < (iterate n l).length → ((iterate n l).getD i []).length = n) ∧
    (iterate n ([] : List α) = []) ∧
    (∀ a b c d e : α, iterate 2 [a, b, c, d, e] = [[a, b], [c, d], [e]]) := by
  obtain ⟨k, rfl⟩ : ∃ k, n = k + 1 := ⟨n - 1, by omega⟩
  refine ⟨iterate_join_fuel k l.length l le_rfl, iterate_pages_fuel k l.length l le_rfl,
    iterate_full_fuel k l.length l le_rfl, iterate_nil _, ?_⟩
  intro a b c d e
  simp [iterate_cons_succ, iterate_nil]

/-- Witness for C5 at concrete inputs. -/
theorem iterate_pagination_witness :
    (iterate 2 [1, 2, 3, 4, 5]).flatten = [1, 2, 3, 4, 5] :=
  (iterate_pagination 2 (by decide) [1, 2, 3, 4, 5]).1

/-! ## Persistence round-trip and truncation lemmas -/

theorem readStrs_encode (ps : List String) (rest : List PickleTok) :
    readStrs ps.length (ps.map PickleTok.str ++ rest) = .ok (ps, rest) := by
  induction ps with
  | nil => rfl
  | cons p ps ih =>
      simp only [List.length_cons, List.map_cons, List.cons_append, readStrs, readStr, ih]

theorem readRecord_encode (r : Record') (rest : List PickleTok) :
    readRecord (encodeRecord r ++ rest) = .ok (r, rest) := by
  rcases r with ⟨name, phones, bday⟩
  simp only [encodeRecord, readRecord, List.cons_append, List.append_assoc]
  simp only [readStr, readNat, readStrs_encode]
  rcases bday with _ | b <;> rfl

theorem readEntries_encode (d : List (String × Record')) (rest : List PickleTok) :
    readEntries d.length (encodeEntries d ++ rest) = .ok (d, rest) := by
  induction d with
  | nil => rfl
  | cons kr d ih =>
      rcases kr with ⟨k, r⟩
      simp only [List.length_cons, encodeEntries, List.cons_append, List.append_assoc,
        readEntries, readStr, readRecord_encode, ih]

theorem decodePayload_encode (d : List (String × Record')) :
    decodePayload (picklePayload d) = .ok d := by
  have h := readEntries_encode d []
  rw [List.append_nil] at h
  simp only [picklePayload, decodePayload, readNat, h]

theorem pickleLoads_dumps (d : List (String × Record')) :
    pickleLoads (pickleDumps d) = .ok d := by
  simp only [pickleDumps, picklePayload, pickleLoads]
  rw [if_neg (lt_irrefl _)]
  exact decodePayload_encode d

theorem strictPre_cons {x : α} {xs pre : List α} (h : StrictPre pre (x :: xs)) :
    pre = [] ∨ ∃ pre', pre = x :: pre' ∧ StrictPre pre' xs := by
  rcases h with ⟨t, ht, he⟩
  rcases pre with _ | ⟨p, pre'⟩
  · exact Or.inl rfl
  · right
    rcases List.cons.injEq p (pre' ++ t) x xs ▸ he with ⟨h1, h2⟩
    exact ⟨pre', by rw [h1], t, ht, h2⟩

theorem strictPre_length {pre full : List α} (h : StrictPre pre full) :
    pre.length < full.length := by
  rcases h with ⟨t, ht, rfl⟩
  simp only [List.length_append]
  have : t.length ≠ 0 := fun h0 => ht (List.length_eq_zero.mp h0)
  omega

/-- C4: saving an address book and loading it back succeeds and restores
an equal book: the same name keys in the same order, and for every name
the same ordered phone list and the same birthday value. -/
theorem save_load_roundtrip (b : AddressBook') :
    ∃ b', read_contacts_from_file (some (write_to_file b)) = .ok b' ∧
      b'.data.map Prod.fst = b.data.map Prod.fst ∧
      (∀ name, (find b' name).map Record'.phones = (find b name).map Record'.phones) ∧
      (∀ name, (find b' name).map Record'.birthday =
        (find b name).map Record'.birthday) := by
  refine ⟨b, ?_, rfl, fun _ => rfl, fun _ => rfl⟩
  simp only [read_contacts_from_file, write_to_file, pickleLoads_dumps]

/-- C8 counterexample: a file truncated right after the `FRAME` opcode —
a strict prefix of a real save — makes `load` raise `UnpicklingError`
("pickle data was truncated") to the caller instead of returning an empty
book, because `read_contacts_from_file` catches only `FileNotFoundError`
and `EOFError`. -/
theorem load_truncated_raises :
    StrictPre [PickleTok.proto, PickleTok.frame 6]
      (write_to_file ⟨[("Ann", ⟨"Ann", ["0123456789"], none⟩)]⟩) ∧
    read_contacts_from_file (some [PickleTok.proto, PickleTok.frame 6]) =
      .error .unpicklingError := by
  refine ⟨⟨[.nat 1, .str "Ann", .str "Ann", .nat 1, .str "0123456789", .noneTok],
    by decide, rfl⟩, rfl⟩

/-- C8 (amended): `load` returns an empty address book — raising nothing —
when the file is missing, empty, or cut off right after the protocol
header (the cases `pickle.load` reports as `EOFError`), and reconstructs
the book exactly from a well-formed file; but a file truncated anywhere
inside the frame — every strict prefix of a save with at least two
opcodes — raises `UnpicklingError` to the caller. -/
theorem load_graceful :
    read_contacts_from_file none = .ok ⟨[]⟩ ∧
    read_contacts_from_file (some []) = .ok ⟨[]⟩ ∧
    read_contacts_from_file (some [PickleTok.proto]) = .ok ⟨[]⟩ ∧
    (∀ (b : AddressBook') (pre : List PickleTok),
      StrictPre pre (write_to_file b) → 2 ≤ pre.length →
        read_contacts_from_file (some pre) = .error .unpicklingError) ∧
    (∀ b : AddressBook', read_contacts_from_file (some (write_to_file b)) = .ok b) := by
  refine ⟨rfl, rfl, rfl, ?_, ?_⟩
  · intro b pre hpre hlen
    have hsh : ∃ rest, pre = PickleTok.proto :: PickleTok.frame
        (picklePayload b.data).length :: rest ∧ StrictPre rest (picklePayload b.data) := by
      rcases strictPre_cons (by simpa [write_to_file, pickleDumps] using hpre) with
        rfl | ⟨pre₁, rfl, h₁⟩
      · simp at hlen
      · rcases strictPre_cons h₁ with rfl | ⟨rest, rfl, h₂⟩
        · simp at hlen
        · exact ⟨rest, rfl, h₂⟩
    obtain ⟨rest, rfl, hrest⟩ := hsh
    have hload : pickleLoads (PickleTok.proto :: PickleTok.frame
        (picklePayload b.data).length :: rest) = .error .corrupt := by
      simp only [pickleLoads]
      rw [if_pos (strictPre_length hrest)]
    simp only [read_contacts_from_file, hload]
  · intro b
    simp only [read_contacts_from_file, write_to_file, pickleLoads_dumps]

/-- Witness for the amended C8 at a concrete truncated file. -/
theorem load_graceful_witness :
    read_contacts_from_file (some [PickleTok.proto, PickleTok.frame 6]) =
      .error .unpicklingError :=
  load_graceful.2.2.2.1 ⟨[("Ann", ⟨"Ann", ["0123456789"], none⟩)]⟩
    [PickleTok.proto, PickleTok.frame 6]
    ⟨[.nat 1, .str "Ann", .str "Ann", .nat 1, .str "0123456789", .noneTok],
      by decide, rfl⟩ (by decide)

/-! ## C9: Birthday validation -/

theorem digitVal_le {c : Char} (h : isDecimalDigit c = true) : digitVal c ≤ 9 := by
  simp only [isDecimalDigit, Bool.and_eq_true, decide_eq_true_eq] at h
  unfold digitVal
  omega

theorem natOfDigits_one (c : Char) : natOfDigits [c] = digitVal c := by
  simp [natOfDigits]

theorem natOfDigits_two (c1 c2 : Char) :
    natOfDigits [c1, c2] = digitVal c1 * 10 + digitVal c2 := by
  simp [natOfDigits]

theorem natOfDigits_four (a b c d : Char) :
    natOfDigits [a, b, c, d] =
      ((digitVal a * 10 + digitVal b) * 10 + digitVal c) * 10 + digitVal d := by
  simp [natOfDigits]

theorem natOfDigits_four_le {a b c d : Char} (ha : isDecimalDigit a = true)
    (hb : isDecimalDigit b = true) (hc : isDecimalDigit c = true)
    (hd : isDecimalDigit d = true) : natOfDigits [a, b, c, d] ≤ 9999 := by
  have := digitVal_le ha
  have := digitVal_le hb
  have := digitVal_le hc
  have := digitVal_le hd
  rw [natOfDigits_four]
  omega

theorem list_len_one_two {l : List Char} (h1 : 1 ≤ l.length) (h2 : l.length ≤ 2) :
    (∃ c, l = [c]) ∨ ∃ c1 c2, l = [c1, c2] := by
  rcases l with _ | ⟨a, _ | ⟨b, _ | ⟨c, t⟩⟩⟩
  · simp at h1
  · exact Or.inl ⟨a, rfl⟩
  · exact Or.inr ⟨a, b, rfl⟩
  · simp at h2

theorem list_len_four {l : List Char} (h : l.length = 4) :
    ∃ a b c d, l = [a, b, c, d] := by
  rcases l with _ | ⟨a, _ | ⟨b, _ | ⟨c, _ | ⟨d, _ | ⟨e, t⟩⟩⟩⟩⟩ <;> simp at h
  exact ⟨a, b, c, d, rfl⟩

theorem parse2or1_two {c1 c2 : Char} (rest : List Char)
    (hc1 : isDecimalDigit c1 = true) (hc2 : isDecimalDigit c2 = true) :
    parse2or1 (c1 :: c2 :: rest) = some (digitVal c1 * 10 + digitVal c2, rest) := by
  simp only [parse2or1]
  rw [if_pos ⟨hc1, hc2⟩]

theorem parse2or1_one {c1 c2 : Char} (rest : List Char)
    (hc1 : isDecimalDigit c1 = true) (hc2 : isDecimalDigit c2 = false) :
    parse2or1 (c1 :: c2 :: rest) = some (digitVal c1, c2 :: rest) := by
  simp only [parse2or1]
  rw [if_neg fun hh => by rw [hc2] at hh; exact absurd hh.2 (by simp), if_pos hc1]

theorem parse2or1_single {c1 : Char} (hc1 : isDecimalDigit c1 = true) :
    parse2or1 [c1] = some (digitVal c1, []) := by
  simp only [parse2or1]
  rw [if_pos hc1]

theorem parse2or1_inv {cs : List Char} {v : Nat} {rest : List Char}
    (h : parse2or1 cs = some (v, rest)) :
    (∃ c1 c2, cs = c1 :: c2 :: rest ∧ isDecimalDigit c1 = true ∧
      isDecimalDigit c2 = true ∧ v = digitVal c1 * 10 + digitVal c2) ∨
    (∃ c1, cs = c1 :: rest ∧ isDecimalDigit c1 = true ∧ v = digitVal c1) := by
  rcases cs with _ | ⟨c1, _ | ⟨c2, rest'⟩⟩
  · simp [parse2or1] at h
  · by_cases hc : isDecimalDigit c1 = true
    · simp only [parse2or1] at h
      rw [if_pos hc] at h
      simp only [Option.some.injEq, Prod.mk.injEq] at h
      exact Or.inr ⟨c1, by rw [h.2], hc, h.1.symm⟩
    · simp only [parse2or1] at h
      rw [if_neg hc] at h
      cases h
  · simp only [parse2or1] at h
    by_cases h12 : isDecimalDigit c1 = true ∧ isDecimalDigit c2 = true
    · rw [if_pos h12] at h
      simp only [Option.some.injEq, Prod.mk.injEq] at h
      exact Or.inl ⟨c1, c2, by rw [h.2], h12.1, h12.2, h.1.symm⟩
    · rw [if_neg h12] at h
      by_cases hc1 : isDecimalDigit c1 = true
      · rw [if_pos hc1] at h
        simp only [Option.some.injEq, Prod.mk.injEq] at h
        exact Or.inr ⟨c1, by rw [h.2], hc1, h.1.symm⟩
      · rw [if_neg hc1] at h
        cases h

theorem parse4_eval {a b c d : Char} (rest : List Char)
    (ha : isDecimalDigit a = true) (hb : isDecimalDigit b = true)
    (hc : isDecimalDigit c = true) (hd : isDecimalDigit d = true) :
    parse4 (a :: b :: c :: d :: rest) = some (natOfDigits [a, b, c, d], rest) := by
  simp only [parse4]
  rw [if_pos ⟨ha, hb, hc, hd⟩, natOfDigits_four]

theorem parse4_inv {cs : List Char} {v : Nat} {rest : List Char}
    (h : parse4 cs = some (v, rest)) :
    ∃ a b c d, cs = a :: b :: c :: d :: rest ∧ isDecimalDigit a = true ∧
      isDecimalDigit b = true ∧ isDecimalDigit c = true ∧ isDecimalDigit d = true ∧
      v = natOfDigits [a, b, c, d] := by
  rcases cs with _ | ⟨a, _ | ⟨b, _ | ⟨c, _ | ⟨d, rest'⟩⟩⟩⟩
  · simp [parse4] at h
  · simp [parse4] at h
  · simp [parse4] at h
  · simp [parse4] at h
  · simp only [parse4] at h
    by_cases hall : isDecimalDigit a = true ∧ isDecimalDigit b = true ∧
        isDecimalDigit c = true ∧ isDecimalDigit d = true
    · rw [if_pos hall] at h
      simp only [Option.some.injEq, Prod.mk.injEq] at h
      refine ⟨a, b, c, d, by rw [h.2], hall.1, hall.2.1, hall.2.2.1, hall.2.2.2, ?_⟩
      rw [natOfDigits_four, h.1]
    · rw [if_neg hall] at h
      cases h

theorem strptimeDMY_eq {s : String} {dv mv yv : Nat} {r1 r2 : List Char}
    (h1 : parse2or1 s.data = some (dv, '.' :: r1))
    (h2 : parse2or1 r1 = some (mv, '.' :: r2))
    (h3 : parse4 r2 = some (yv, [])) :
    strptimeDMY s =
      if 1 ≤ dv ∧ dv ≤ 31 ∧ 1 ≤ mv ∧ mv ≤ 12 then some (dv, mv, yv) else none := by
  unfold strptimeDMY
  simp only [h1, h2, h3]

theorem strptimeDMY_inv {s : String} {d m y : Nat}
    (h : strptimeDMY s = some (d, m, y)) :
    ∃ r1 r2, parse2or1 s.data = some (d, '.' :: r1) ∧
      parse2or1 r1 = some (m, '.' :: r2) ∧ parse4 r2 = some (y, []) ∧
      1 ≤ d ∧ d ≤ 31 ∧ 1 ≤ m ∧ m ≤ 12 := by
  unfold strptimeDMY at h
  split at h
  next dv r1 heq1 =>
    split at h
    next mv r2 heq2 =>
      split at h
      next yv heq3 =>
        split at h
        next hranges =>
          simp only [Option.some.injEq, Prod.mk.injEq] at h
          obtain ⟨rfl, rfl, rfl⟩ := h
          exact ⟨r1, r2, heq1, heq2, heq3, hranges.1, hranges.2.1,
            hranges.2.2.1, hranges.2.2.2⟩
        next => cases h
      next => cases h
    next => cases h
  next => cases h

theorem validate_eval_none {s : String} (h : strptimeDMY s = none) :
    validate_birthday_format s = .error (.valueError "Birthday is not a date") := by
  unfold validate_birthday_format
  rw [h]

theorem validate_eval_some {s : String} {d m y : Nat}
    (h : strptimeDMY s = some (d, m, y)) :
    validate_birthday_format s =
      match mkDatetime y m d with
      | .ok _ => .ok ()
      | .error _ => .error (.valueError "Birthday is not a date") := by
  unfold validate_birthday_format
  rw [h]

theorem birthday_validate_cases (s : String) :
    validate_birthday_format s = .ok () ∨
    validate_birthday_format s = .error (.valueError "Birthday is not a date") := by
  rcases h : strptimeDMY s with - | ⟨⟨d, m, y⟩⟩
  · exact Or.inr (validate_eval_none h)
  · rw [validate_eval_some h]
    rcases h2 : mkDatetime y m d with e | dt
    · exact Or.inr rfl
    · exact Or.inl rfl

theorem birthday_mk_ok_iff (s : String) :
    Birthday.mk' s = .ok s ↔ validate_birthday_format s = .ok () := by
  unfold Birthday.mk'
  rcases birthday_validate_cases s with h | h <;> rw [h]
  · exact iff_of_true rfl rfl
  · exact iff_of_false (by simp [Except.map]) (by simp)

theorem birthday_valid_iff (s : String) :
    validate_birthday_format s = .ok () ↔ specBirthdayAccepts s := by
  constructor
  · intro h
    rcases hs : strptimeDMY s with - | ⟨⟨d, m, y⟩⟩
    · rw [validate_eval_none hs] at h; cases h
    · rw [validate_eval_some hs] at h
      rcases hd : mkDatetime y m d with e | dt
      · rw [hd] at h; cases h
      · have hbounds : 1 ≤ y ∧ y ≤ 9999 ∧ 1 ≤ m ∧ m ≤ 12 ∧ 1 ≤ d ∧
            d ≤ daysInMonth y m := by
          unfold mkDatetime at hd
          split at hd
          · assumption
          · cases hd
        obtain ⟨r1, r2, hp1, hp2, hp3, hd1, hd31, hm1, hm12⟩ := strptimeDMY_inv hs
        obtain ⟨a, b, c, d4, hr2, ha, hb, hc, hd4, hyv⟩ := parse4_inv hp3
        have hysdig : ∀ ch ∈ r2, isDecimalDigit ch := by
          rw [hr2]
          intro ch hch
          simp only [List.mem_cons, List.not_mem_nil, or_false] at hch
          rcases hch with rfl | rfl | rfl | rfl <;> assumption
        have hys4 : r2.length = 4 := by rw [hr2]; rfl
        have hysv : natOfDigits r2 = y := by rw [hr2]; exact hyv.symm
        obtain ⟨ms, hr1, hmsdig, hms1, hms2, hmsv⟩ :
            ∃ ms : List Char, r1 = ms ++ '.' :: r2 ∧
              (∀ ch ∈ ms, isDecimalDigit ch) ∧ 1 ≤ ms.length ∧ ms.length ≤ 2 ∧
              natOfDigits ms = m := by
          rcases parse2or1_inv hp2 with ⟨c1, c2, hcs, hc1, hc2, hv⟩ | ⟨c1, hcs, hc1, hv⟩
          · refine ⟨[c1, c2], by simp [hcs], ?_, by simp, by simp,
              by rw [natOfDigits_two, hv]⟩
            intro ch hch
            simp only [List.mem_cons, List.not_mem_nil, or_false] at hch
            rcases hch with rfl | rfl <;> assumption
          · refine ⟨[c1], by simp [hcs], ?_, by simp, by simp,
              by rw [natOfDigits_one, hv]⟩
            intro ch hch
            simp only [List.mem_cons, List.not_mem_nil, or_false] at hch
            subst hch
            assumption
        obtain ⟨ds, hsd, hdsdig, hds1, hds2, hdsv⟩ :
            ∃ ds : List Char, s.data = ds ++ '.' :: r1 ∧
              (∀ ch ∈ ds, isDecimalDigit ch) ∧ 1 ≤ ds.length ∧ ds.length ≤ 2 ∧
              natOfDigits ds = d := by
          rcases parse2or1_inv hp1 with ⟨c1, c2, hcs, hc1, hc2, hv⟩ | ⟨c1, hcs, hc1, hv⟩
          · refine ⟨[c1, c2], by simp [hcs], ?_, by simp, by simp,
              by rw [natOfDigits_two, hv]⟩
            intro ch hch
            simp only [List.mem_cons, List.not_mem_nil, or_false] at hch
            rcases hch with rfl | rfl <;> assumption
          · refine ⟨[c1], by simp [hcs], ?_, by simp, by simp,
              by rw [natOfDigits_one, hv]⟩
            intro ch hch
            simp only [List.mem_cons, List.not_mem_nil, or_false] at hch
            subst hch
            assumption
        refine ⟨ds, ms, r2, ?_, hdsdig, hds1, hds2, hmsdig, hms1, hms2,
          hysdig, hys4, ?_, ?_, ?_, ?_, ?_⟩
        · rw [hsd, hr1]
        · rw [hdsv]; exact hd1
        · rw [hdsv]; exact hd31
        · rw [hmsv]; exact hm1
        · rw [hmsv]; exact hm12
        · rw [hysv, hmsv, hdsv]
          show 1 ≤ y ∧ 1 ≤ m ∧ m ≤ 12 ∧ 1 ≤ d ∧ d ≤ daysInMonth y m
          exact ⟨hbounds.1, hbounds.2.2.1, hbounds.2.2.2.1, hbounds.2.2.2.2.1,
            hbounds.2.2.2.2.2⟩
  · rintro ⟨ds, ms, ys, hsplit, hdsdig, hds1, hds2, hmsdig, hms1, hms2,
      hysdig, hys4, hd1, hd31, hm1, hm12, htrip⟩
    have e3 : parse4 ys = some (natOfDigits ys, []) := by
      obtain ⟨a, b, c, d, rfl⟩ := list_len_four hys4
      exact parse4_eval [] (hysdig a (by simp)) (hysdig b (by simp))
        (hysdig c (by simp)) (hysdig d (by simp))
    have e2 : parse2or1 (ms ++ '.' :: ys) = some (natOfDigits ms, '.' :: ys) := by
      rcases list_len_one_two hms1 hms2 with ⟨c, rfl⟩ | ⟨c1, c2, rfl⟩
      · rw [List.cons_append, List.nil_append, natOfDigits_one]
        exact parse2or1_one ys (hmsdig c (by simp)) (by decide)
      · rw [List.cons_append, List.cons_append, List.nil_append, natOfDigits_two]
        exact parse2or1_two ('.' :: ys) (hmsdig c1 (by simp)) (hmsdig c2 (by simp))
    have e1 : parse2or1 s.data =
        some (natOfDigits ds, '.' :: (ms ++ '.' :: ys)) := by
      rw [hsplit]
      rcases list_len_one_two hds1 hds2 with ⟨c, rfl⟩ | ⟨c1, c2, rfl⟩
      · rw [List.cons_append, List.nil_append, natOfDigits_one]
        exact parse2or1_one _ (hdsdig c (by simp)) (by decide)
      · rw [List.cons_append, List.cons_append, List.nil_append, natOfDigits_two]
        exact parse2or1_two _ (hdsdig c1 (by simp)) (hdsdig c2 (by simp))
    have hstrp := strptimeDMY_eq e1 e2 e3
    rw [if_pos ⟨hd1, hd31, hm1, hm12⟩] at hstrp
    have hy9999 : natOfDigits ys ≤ 9999 := by
      obtain ⟨a, b, c, d, rfl⟩ := list_len_four hys4
      exact natOfDigits_four_le (hysdig a (by simp)) (hysdig b (by simp))
        (hysdig c (by simp)) (hysdig d (by simp))
    obtain ⟨hy1, hm1', hm12', hd1', hdm⟩ := htrip
    have hmk : mkDatetime (natOfDigits ys) (natOfDigits ms) (natOfDigits ds) =
        .ok ⟨natOfDigits ys, natOfDigits ms, natOfDigits ds⟩ := by
      unfold mkDatetime
      rw [if_pos ⟨hy1, hy9999, hm1', hm12', hd1', hdm⟩]
    rw [validate_eval_some hstrp, hmk]

/-- C9: `Birthday` construction succeeds exactly when the input splits as
`day.month.year` — day and month of one or two digits with day in
`[1,31]` and month in `[1,12]`, year of exactly four digits — and the
triple is a valid Gregorian calendar date; otherwise it raises
`ValueError("Birthday is not a date")`. -/
theorem birthday_construction_spec (s : String) :
    (Birthday.mk' s = .ok s ↔ specBirthdayAccepts s) ∧
    (¬ specBirthdayAccepts s →
      Birthday.mk' s = .error (.valueError "Birthday is not a date")) := by
  have hiff := (birthday_mk_ok_iff s).trans (birthday_valid_iff s)
  refine ⟨hiff, fun hn => ?_⟩
  rcases birthday_validate_cases s with h | h
  · exact absurd ((birthday_valid_iff s).mp h) hn
  · unfold Birthday.mk'
    rw [h]
    rfl

/-- Witness for C9 at a concrete valid date. -/
theorem birthday_construction_spec_witness :
    Birthday.mk' "15.01.1990" = .ok "15.01.1990" :=
  (birthday_construction_spec "15.01.1990").1.mpr
    ⟨['1', '5'], ['0', '1'], ['1', '9', '9', '0'], by decide, by decide, by decide,
      by decide, by decide, by decide, by decide, by decide, by decide, by decide,
      by decide, by decide, by decide, by decide⟩

end AddressBookBot
